import Mathlib

/-!
Verification of the incremental-recompilation pipeline of `latex-fast-compile`.

The Go program splits a `.tex` source into a preamble part and a body part,
precompiles the preamble into a `.fmt` format artifact, compiles the body
against that format, relocates output artifacts back to the user-facing name,
and watches the source file for changes, recompiling with a single-flight
guard.  The definitions below are shallow embeddings of the corresponding Go
functions; text is modelled as `List Char` (byte-level content), the file
system as a map from paths to optional contents, and the external regex
engine as an oracle returning the first match start, exactly as
`regexp.FindIndex` is consumed by `splitTeX`.
-/

namespace LFC

/-- Text (file contents and path names) modelled as a list of characters. -/
abbrev Text := List Char

/-- `strings.Count(s, "\n")`: the number of newline characters in `s`. -/
def countNL (t : Text) : Nat := t.count '\n'

/-- Configuration state relevant to the split/precompile pipeline, taken from
the program's global flag variables (`mustUseXe`, `mustBuildFormat`,
`mustCompileAll`, `inBase`, `inBaseOriginal`). -/
structure Config where
  mustUseXe : Bool
  mustBuildFormat : Bool
  mustCompileAll : Bool
  inBase : Text
  inBaseOriginal : Text

/-- The `".tex"` suffix appended to base names. -/
def texExt : Text := ".tex".toList

/-- The `".preamble.tex"` suffix of the preamble working file. -/
def preambleExt : Text := ".preamble.tex".toList

/-- The `".body.tex"` suffix of the body working file. -/
def bodyExt : Text := ".body.tex".toList

/-- The stop-and-dump directive `\dump` appended to the preamble file. -/
def dumpTok : Text := "\\dump".toList

/-- The two characters `%&` that open the resume-from-format directive. -/
def pctAmp : Text := "%&".toList

/-- The constant `xeFirstLine` from the source: the fixed directive pair
prepended to the preamble in xelatex mode (sets OT1 as default encoding and
schedules restoring TU for every later job).  It contains one newline. -/
def xeFirstLine : Text :=
  ("\\def\\encodingdefault\x7bOT1\x7d\\normalfont\n\\everyjob\\expandafter\x7b\\the\\everyjob\\def\\encodingdefault\x7bTU\x7d\\normalfont\x7d").toList

/-- `strings.Contains(s, pat)` on character lists. -/
def hasSub (pat : Text) : Text → Bool
  | [] => pat.isEmpty
  | c :: rest => pat.isPrefixOf (c :: rest) || hasSub pat rest

/-- The package name `fontspec` scanned for by the preamble adapter. -/
def fontspecTok : Text := "fontspec".toList

/-- The package name `polyglossia` scanned for by the preamble adapter. -/
def polyglossiaTok : Text := "polyglossia".toList

/-- `adaptPreamble` from the source: a no-op unless xelatex mode is active;
otherwise it starts the new preamble with `xeFirstLine`, then walks the
newline-separated pieces of the preamble, moving every piece that mentions
`fontspec` or `polyglossia` (followed by a newline) to `addToBody` and
appending every other piece (preceded by a newline) to the new preamble. -/
def adaptPreamble (cfg : Config) (preamble : Text) : Text × Text :=
  if cfg.mustUseXe = false then (preamble, [])
  else
    (preamble.splitOn '\n').foldl
      (fun acc line =>
        if hasSub fontspecTok line || hasSub polyglossiaTok line then
          (acc.1, acc.2 ++ line ++ ['\n'])
        else
          (acc.1 ++ '\n' :: line, acc.2))
      (xeFirstLine, [])

/-- The pad computation of `splitTeX` (current version): newlines in the
adapted preamble, minus newlines in the moved-to-body lines, minus (in
xelatex mode) the newlines of `xeFirstLine`; a result of exactly `0` is
replaced by `1`. -/
def padOf (cfg : Config) (texPreamble addToBody : Text) : Int :=
  let n : Int := (countNL texPreamble : Int) - (countNL addToBody : Int) -
    (if cfg.mustUseXe = true then (countNL xeFirstLine : Int) else 0)
  if n = 0 then 1 else n

/-- The pure splitting step of the current `splitTeX` (everything after
`reSplit.FindIndex` returned match start `loc0`): the preamble file content is
the adapted preamble followed by `\dump`; the body file content is
`%&<inBase>` followed by the compensation pad of newlines, the moved lines,
and the source bytes from the match start on.  `none` models the
`strings.Repeat` panic raised when the computed pad is negative. -/
def splitCore (cfg : Config) (texdata : Text) (loc0 : Nat) : Option (Text × Text) :=
  let ap := adaptPreamble cfg (texdata.take loc0)
  let nn := padOf cfg ap.1 ap.2
  if 0 ≤ nn then
    some (ap.1 ++ dumpTok,
      pctAmp ++ cfg.inBase ++ List.replicate nn.toNat '\n' ++ ap.2 ++ texdata.drop loc0)
  else none

/-- The pure splitting step of the earlier `splitTeX` version (no preamble
adapter, fixed `"\n%&<inBase>\n"` body prelude): returns the preamble file
content and the body file content. -/
def splitCoreV0 (cfg : Config) (texdata : Text) (loc0 : Nat) : Text × Text :=
  (texdata.take loc0 ++ dumpTok,
   '\n' :: pctAmp ++ cfg.inBase ++ '\n' :: texdata.drop loc0)

/-- The local file system, mapping a path to the content of the file stored
there (`none` when no file exists at the path). -/
def FS : Type := Text → Option Text

/-- Writing a file: `ioutil.WriteFile` replaces the content at one path and
leaves every other path unchanged. -/
def fsWrite (p c : Text) (fs : FS) : FS := fun q => if q = p then some c else fs q

/-- Outcome of one `splitTeX` call: `ok`/`failed` are the two boolean returns
of the Go function, `panicked` models the `strings.Repeat` panic on a
negative pad (which crashes the process). -/
inductive SplitRes
  | ok
  | failed
  | panicked
  deriving DecidableEq

/-- The copy prologue of `splitTeX`: when a full compile is requested and the
normalized base name differs from the original one, the original source is
copied to `<inBase>.tex`; the copy fails when the source is missing. -/
def copyStepF (cfg : Config) (fs : FS) : FS × Bool :=
  if cfg.mustCompileAll = true ∧ cfg.inBaseOriginal ≠ cfg.inBase then
    match fs (cfg.inBaseOriginal ++ texExt) with
    | some c => (fsWrite (cfg.inBase ++ texExt) c fs, true)
    | none => (fs, false)
  else (fs, true)

/-- The write phase of `splitTeX` once the matcher found `loc0`: the preamble
file is written first (adapted preamble plus `\dump`), then the body file;
`panicked` is reported when the pad is negative, in which case the body file
is not written (`strings.Repeat` panics between the two writes). -/
def writePhase (cfg : Config) (texdata : Text) (loc0 : Nat) (fs1 : FS) : FS × SplitRes :=
  let preOut := (adaptPreamble cfg (texdata.take loc0)).1 ++ dumpTok
  let fs2 := fsWrite (cfg.inBase ++ preambleExt) preOut fs1
  match splitCore cfg texdata loc0 with
  | some pb => (fsWrite (cfg.inBase ++ bodyExt) pb.2 fs2, SplitRes.ok)
  | none => (fs2, SplitRes.panicked)

/-- `splitTeX` at the file-system level, parameterized by the compiled split
pattern as a match oracle `m` (the use the source makes of
`reSplit.FindIndex`): optional copy of the source, early return when the
format is not being built and a full compile is requested, read of the source
(a second read of the unchanged modelled disk is identical, so the one-retry
loop collapses; an empty or unreadable source fails), match search, then the
two writes. -/
def splitTeXFS (cfg : Config) (m : Text → Option Nat) (fs : FS) : FS × SplitRes :=
  let cres := copyStepF cfg fs
  if cfg.mustBuildFormat = false ∧ cfg.mustCompileAll = true then
    (cres.1, if cres.2 then SplitRes.ok else SplitRes.failed)
  else
    match cres.1 (cfg.inBaseOriginal ++ texExt) with
    | none => (cres.1, SplitRes.failed)
    | some texdata =>
      if texdata = [] then (cres.1, SplitRes.failed)
      else
        match m texdata with
        | none => (cres.1, SplitRes.failed)
        | some loc0 => writePhase cfg texdata loc0 cres.1

/-- One external-compiler invocation: the precompile pass, or a document
compile pass (draft or final). -/
inductive Inv
  | precompileRun
  | compileRun (draft : Bool)
  deriving DecidableEq

/-- Result of one recompilation cycle triggered by the watch loop. -/
structure CycleResult where
  fsOut : FS
  invocations : List Inv
  compilingEnd : Bool
  clears : Nat

/-- `recompile` from the source: run `splitTeX`; on success run `compile`
(non-draft), whose deferred `compileEnd` clears the compiling flag once; on
failure clear the compiling flag directly (one assignment) and invoke
nothing.  A panic inside the split crashes the process (`none`). -/
def recompileFS (cfg : Config) (m : Text → Option Nat) (fs : FS) : Option CycleResult :=
  match splitTeXFS cfg m fs with
  | (fs', SplitRes.ok) => some ⟨fs', [Inv.compileRun false], false, 1⟩
  | (fs', SplitRes.failed) => some ⟨fs', [], false, 1⟩
  | (_, SplitRes.panicked) => none

/-- The state consulted by `precompile`: the two flags and whether the
format artifact `<outBase>.fmt` is currently absent (`isFileMissing`). -/
structure FormatState where
  mustBuildFormat : Bool
  mustCompileAll : Bool
  fmtMissing : Bool

/-- `precompile` from the source: runs the compiler in precompile mode when
`mustBuildFormat || (!mustCompileAll && isFileMissing(outBase+".fmt"))`, then
unconditionally clears `mustBuildFormat`. -/
def precompileStep (st : FormatState) : FormatState × List Inv :=
  ({ st with mustBuildFormat := false },
   if st.mustBuildFormat = true ∨ (st.mustCompileAll = false ∧ st.fmtMissing = true) then
     [Inv.precompileRun]
   else [])

/-- State of the watch loop: the process-wide compiling flag, plus a ghost
counter of recompilation cycles currently in flight (scheduled by
`time.AfterFunc` and not yet finished), used to state the single-flight
property. -/
structure WatchState where
  isCompiling : Bool
  inFlight : Nat
  deriving DecidableEq

/-- Events seen by the watch loop: a file-system write notification, or the
completion of an in-flight recompilation cycle (with the success of its
split step). -/
inductive WEvent
  | write
  | cycleDone (splitOk : Bool)

/-- One step of the watch loop, from the source's event handler: on a write
event, if the compiling flag is set the event is dropped (no queueing, only a
debug print), otherwise the flag is set and one cycle is scheduled; when a
cycle completes, `compileEnd` (or the failure branch of `recompile`) clears
the flag.  Completion with nothing in flight cannot occur and is a no-op. -/
def watchStep (s : WatchState) (e : WEvent) : WatchState :=
  match e with
  | WEvent.write => if s.isCompiling then s else ⟨true, s.inFlight + 1⟩
  | WEvent.cycleDone _ => if s.inFlight = 0 then s else ⟨false, s.inFlight - 1⟩

/-! ### Filename normalization and artifact relocation

`normalizeName` pipes the name through the external `golang.org/x/text`
transform chain `NFD → RemoveFunc(Mn) → NFC` and then deletes spaces.  The
Unicode layer is modelled at the granularity the code uses it: a `Rune` is an
unaccented base character, a nonspacing combining mark (category Mn), a
precomposed character (which NFD decomposes into its base character followed
by its marks), or a space. -/

/-- A Unicode rune as seen by `normalizeName`. -/
inductive Rune
  | base (c : Char)
  | mark (m : Nat)
  | prec (c : Char) (ms : List Nat)
  | space
  deriving DecidableEq

/-- A user-facing or internal base name / path. -/
abbrev PathR := List Rune

/-- `unicode.Is(unicode.Mn, r)`: is the rune a nonspacing mark? -/
def isMn : Rune → Bool
  | Rune.mark _ => true
  | _ => false

/-- Canonical decomposition of one rune (`norm.NFD`): a precomposed rune
splits into its base character followed by its combining marks; every other
rune is its own decomposition. -/
def nfdRune : Rune → List Rune
  | Rune.prec c ms => Rune.base c :: ms.map Rune.mark
  | r => [r]

/-- `norm.NFD` over a whole name. -/
def nfd (s : PathR) : PathR := (s.map nfdRune).flatten

/-- The mark identifier of a combining-mark rune. -/
def markId : Rune → Option Nat
  | Rune.mark m => some m
  | _ => none

/-- Canonical composition (`norm.NFC`): a base or precomposed rune absorbs
the run of combining marks that follows it into a precomposed rune; other
runes are left in place. -/
def nfc (l : PathR) : PathR :=
  l.foldr
    (fun r acc =>
      match r with
      | Rune.base c =>
        let ms := acc.takeWhile isMn
        if ms.isEmpty then Rune.base c :: acc
        else Rune.prec c (ms.filterMap markId) :: acc.dropWhile isMn
      | Rune.prec c ms0 =>
        let ms := acc.takeWhile isMn
        if ms.isEmpty then Rune.prec c ms0 :: acc
        else Rune.prec c (ms0 ++ ms.filterMap markId) :: acc.dropWhile isMn
      | r' => r' :: acc)
    []

/-- `normalizeName` from the source: NFD, removal of nonspacing marks, NFC,
then removal of spaces (`strings.ReplaceAll(result, " ", "")`). -/
def normalizeName (s : PathR) : PathR :=
  (nfc ((nfd s).filter (fun r => !(isMn r)))).filter (fun r => !(r == Rune.space))

/-- Does the name contain an accented character (precomposed or a combining
mark) or a space? -/
def hasAccentOrSpace (s : PathR) : Bool :=
  s.any (fun r => match r with | Rune.base _ => false | _ => true)

/-- The `".pdf"` suffix as base runes. -/
def pdfR : PathR := ".pdf".toList.map Rune.base

/-- The `".synctex"` suffix as base runes. -/
def syncR : PathR := ".synctex".toList.map Rune.base

/-- The recognized TeX distributions (`texDistro` is one of these or empty). -/
inductive Distro
  | miktex
  | texlive
  | unknown
  deriving DecidableEq

/-- Presence map of output artifacts on disk (`true` when the file exists,
as tested by `!isFileMissing`). -/
def FSet : Type := PathR → Bool

/-- Creation of the destination of a copy (`copyFile` / the add half of
`os.Rename`). -/
def fsAdd (p : PathR) (fs : FSet) : FSet := fun q => if q = p then true else fs q

/-- Deletion of a file (`os.Remove` / the remove half of `os.Rename`). -/
def fsRem (p : PathR) (fs : FSet) : FSet := fun q => if q = p then false else fs q

/-- The relocation epilogue of `compile` (modelled on the artifact-presence
level): after a non-draft pass, when the internal output base differs from
the user-facing one (and, under MiKTeX with an unnormalized name, the
aux-directory option already handles it), the produced `.pdf` is copied to
the user-facing name and the internal copy removed, and the `.synctex` file
is renamed similarly unless synctex is disabled. -/
def compileRelocate (draft : Bool) (inBaseOriginal inBase outBase : PathR)
    (texDistro : Distro) (mustNotSync : Bool) (fs : FSet) : FSet :=
  if draft = false ∧ inBaseOriginal ≠ outBase ∧
      (texDistro ≠ Distro.miktex ∨ inBaseOriginal ≠ inBase) then
    let fs1 :=
      if fs (outBase ++ pdfR) = true then
        fsRem (outBase ++ pdfR) (fsAdd (inBaseOriginal ++ pdfR) fs)
      else fs
    if mustNotSync = false ∧ fs1 (outBase ++ syncR) = true then
      fsRem (outBase ++ syncR) (fsAdd (inBaseOriginal ++ syncR) fs1)
    else fs1
  else fs

/-- Outcome of one `os.Stat` call as consumed by `isFileMissing`: success
(with the directory bit), a does-not-exist error, or any other error (for
example permission denied), in which case the returned `FileInfo` is nil. -/
inductive StatOutcome
  | found (isDir : Bool)
  | errNotExist
  | errOther
  deriving DecidableEq

/-- `isFileMissing` from the source: `true` on a does-not-exist error, else
the result of `info.IsDir()`.  On any other stat error `info` is nil and the
`info.IsDir()` call faults (nil dereference), modelled by `none`. -/
def isFileMissing : StatOutcome → Option Bool
  | StatOutcome.found d => some d
  | StatOutcome.errNotExist => some true
  | StatOutcome.errOther => none

/-- Whether no regular file exists at a path with the given stat outcome
(a directory or nothing at all counts as missing); for a stat error other
than not-exist the existence of the entry is unknown and irrelevant, the
value is arbitrary. -/
def noRegularFile : StatOutcome → Bool
  | StatOutcome.found d => d
  | StatOutcome.errNotExist => true
  | StatOutcome.errOther => true

/-! ### Concrete instances used by counterexamples and witnesses -/

/-- Index of the first occurrence of a literal pattern in a text.  On the
concrete inputs below, the default split pattern
`(?m)^\s*(?:%\s*end\s*preamble|\\begin{document})` matches exactly at the
first occurrence of the literal `\begin{document}` (which sits at a line
start with no preceding whitespace run), so this instantiates the match
oracle faithfully for them. -/
def findSubIdx (pat : Text) : Text → Option Nat
  | [] => if pat.isEmpty then some 0 else none
  | c :: rest =>
    if pat.isPrefixOf (c :: rest) then some 0
    else (findSubIdx pat rest).map (· + 1)

/-- The literal `\begin{document}`. -/
def beginDocTok : Text := "\\begin\x7bdocument\x7d".toList

/-- A configuration with xelatex mode active (and the format being built),
for the base name `doc`. -/
def cfgXeDemo : Config := ⟨true, true, false, "doc".toList, "doc".toList⟩

/-- A default configuration (pdflatex, watch-mode cycle) for base name
`doc`. -/
def cfgDemo : Config := ⟨false, false, false, "doc".toList, "doc".toList⟩

/-- A plausible xelatex document: every non-empty preamble line loads
`fontspec` or `polyglossia`, so the preamble adapter moves them all to the
body. -/
def xeBadSource : Text :=
  ("\\usepackage\x7bfontspec\x7d\n\\usepackage\x7bpolyglossia\x7d\n\\begin\x7bdocument\x7d\nhi\n\\end\x7bdocument\x7d\n").toList

/-- A source whose one-line preamble moves no lines in xelatex mode. -/
def xeNoMoveSource : Text := ("abc\n\\begin\x7bdocument\x7d\nxyz").toList

/-- An empty modelled disk. -/
def fsNone : FS := fun _ => none

/-- The strengthened single-flight invariant of the watch loop: at most one
recompilation cycle is in flight, and none is when the compiling flag is
clear. -/
def WatchInv (s : WatchState) : Prop :=
  s.inFlight ≤ 1 ∧ (s.isCompiling = false → s.inFlight = 0)

/-- A user-facing base name with an accented character and a space. -/
def uDemo : PathR := [Rune.prec 'e' [1], Rune.space, Rune.base 'a']

/-- A disk holding exactly the `.pdf` produced under the internal
(normalized) base name of `uDemo`. -/
def fsDemo : FSet := fun q => q == (normalizeName uDemo ++ pdfR)

/-- A disk holding exactly the source file `doc.tex` with the content
`xeNoMoveSource`. -/
def fsDoc : FS :=
  fun q => if q = ("doc".toList ++ texExt) then some xeNoMoveSource else none

/-! ## Theorems -/

/-- Claim C3 counterexample: with full-document compile mode (`--skip-fmt`)
set together with the force flag (`--precompile`), and the format artifact
present, `precompile` still invokes the external compiler once, refuting
"if skip-all mode is set, precompile never invokes the external compiler". -/
theorem precompile_force_overrides_skip_counterexample :
    (precompileStep ⟨true, true, false⟩).2 ≠ [] := by
  decide

/-- Claim C3 (amended): `precompile` invokes the compiler exactly when the
force flag is set or (full-compile mode is unset and the format artifact is
absent); in particular, in full-compile mode without force it never invokes
the compiler, and with the artifact present and force unset it invokes it
zero times. -/
theorem precompile_invocation_condition :
    ∀ st : FormatState,
      ((precompileStep st).2 ≠ [] ↔
        st.mustBuildFormat = true ∨ (st.mustCompileAll = false ∧ st.fmtMissing = true)) ∧
      (st.mustBuildFormat = false ∧ st.mustCompileAll = true → (precompileStep st).2 = []) ∧
      (st.mustBuildFormat = false ∧ st.fmtMissing = false → (precompileStep st).2 = []) := by
  intro st
  obtain ⟨f, a, m⟩ := st
  cases f <;> cases a <;> cases m <;> simp [precompileStep]

/-- Witness for the amended C3 theorem at a concrete state: the artifact is
present and neither flag is set, so zero invocations happen. -/
theorem precompile_invocation_condition_witness :
    ((false = true ∨ ((false : Bool) = false ∧ (false : Bool) = true)) ↔ False) ∧
    (precompileStep ⟨false, false, false⟩).2 = [] := by
  refine ⟨by simp, ?_⟩
  exact ((precompile_invocation_condition ⟨false, false, false⟩).2.2) ⟨rfl, rfl⟩

/-- Claim C10 counterexample: on a stat outcome that is an error other than
not-exist (for example permission denied), `isFileMissing` does not return a
boolean at all — `info` is nil and `info.IsDir()` faults — refuting "returns
a boolean without fault for every stat outcome". -/
theorem isFileMissing_other_error_counterexample :
    isFileMissing StatOutcome.errOther = none := rfl

/-- Claim C10 (amended): for every stat outcome other than a
non-not-exist error, `isFileMissing` returns a boolean that is true exactly
when no regular file exists at the path (in particular a directory is
reported missing); on any other stat error it faults instead of
returning. -/
theorem isFileMissing_total_on_known_outcomes :
    ∀ so : StatOutcome, so ≠ StatOutcome.errOther →
      ∃ b, isFileMissing so = some b ∧ (b = true ↔ noRegularFile so = true) := by
  intro so h
  cases so with
  | found d => exact ⟨d, rfl, Iff.rfl⟩
  | errNotExist => exact ⟨true, rfl, by simp [noRegularFile]⟩
  | errOther => exact absurd rfl h

/-- Witness for the amended C10 theorem: a directory at the path is reported
missing. -/
theorem isFileMissing_total_on_known_outcomes_witness :
    StatOutcome.found true ≠ StatOutcome.errOther ∧
      ∃ b, isFileMissing (StatOutcome.found true) = some b ∧
        (b = true ↔ noRegularFile (StatOutcome.found true) = true) :=
  ⟨by decide, isFileMissing_total_on_known_outcomes (StatOutcome.found true) (by decide)⟩

/-- Claim C8: the code faults on a plausible xelatex document.  In xelatex
mode, a preamble both of whose lines load `fontspec`/`polyglossia` makes the
adapter move two lines while keeping only the final empty piece, so the
computed compensation pad is `-1`; the `== 0` clamp does not catch negative
values and `strings.Repeat("\n", -1)` panics (modelled by `none`), whereas
the claim (and the spec's "clamped to at least one line") requires the pad to
be at least one and the split to complete for every input. -/
theorem splitTeX_negative_pad_panics :
    splitCore cfgXeDemo xeBadSource 47 = none := by
  decide

/-- With xelatex mode off, the preamble adapter is a no-op. -/
theorem adaptPreamble_not_xe {cfg : Config} (h : cfg.mustUseXe = false) (pre : Text) :
    adaptPreamble cfg pre = (pre, []) := by
  simp [adaptPreamble, h]

/-- With xelatex mode off, the pad is the clamped newline count of the
preamble segment. -/
theorem padOf_not_xe {cfg : Config} (h : cfg.mustUseXe = false) (pre : Text) :
    padOf cfg pre [] = ((max 1 (countNL pre) : Nat) : Int) := by
  unfold padOf
  simp only [h, Bool.false_eq_true, if_false, countNL, List.count_nil,
    Nat.cast_zero, sub_zero, ite_false]
  rcases hc : List.count '\n' pre with _ | k
  · simp
  · have hne : ((k + 1 : Nat) : Int) ≠ 0 := by exact_mod_cast Nat.succ_ne_zero k
    rw [if_neg hne]
    congr 1
    omega

/-- With xelatex mode off, `splitCore` always succeeds and produces the raw
preamble segment followed by `\dump`, and the body prelude `%&<inBase>` with
a pad of newlines equal to the newline count of the preamble segment (one
when that count is zero). -/
theorem splitCore_not_xe {cfg : Config} (h : cfg.mustUseXe = false)
    (texdata : Text) (loc0 : Nat) :
    splitCore cfg texdata loc0 =
      some (texdata.take loc0 ++ dumpTok,
        pctAmp ++ cfg.inBase ++
          List.replicate (max 1 (countNL (texdata.take loc0))) '\n' ++
          texdata.drop loc0) := by
  unfold splitCore
  rw [adaptPreamble_not_xe h]
  simp only [padOf_not_xe h]
  rw [if_pos (Int.natCast_nonneg _)]
  simp
  omega

/-- Claim C1: under the default engine (where the preamble adapter is the
no-op the spec prescribes), the split partitions the source at the match
start: the preamble output is exactly the bytes before the match followed by
`\dump`, and the body output ends with exactly the bytes from the match start
to the end of the source; the same holds for the earlier `splitTeX` version,
which has no adapter at all. -/
theorem splitTeX_partitions_at_first_match :
    ∀ (cfg : Config) (texdata : Text) (loc0 : Nat), cfg.mustUseXe = false →
      (∃ body, splitCore cfg texdata loc0 = some (texdata.take loc0 ++ dumpTok, body) ∧
        ∃ pfx, body = pfx ++ texdata.drop loc0) ∧
      (splitCoreV0 cfg texdata loc0).1 = texdata.take loc0 ++ dumpTok ∧
      (∃ pfx, (splitCoreV0 cfg texdata loc0).2 = pfx ++ texdata.drop loc0) := by
  intro cfg texdata loc0 h
  refine ⟨⟨_, splitCore_not_xe h texdata loc0, ?_⟩, rfl, ?_⟩
  · exact ⟨pctAmp ++ cfg.inBase ++
      List.replicate (max 1 (countNL (texdata.take loc0))) '\n', by simp⟩
  · exact ⟨'\n' :: pctAmp ++ cfg.inBase ++ ['\n'], by simp [splitCoreV0]⟩

/-- Witness for C1 on the concrete source `abc\n\begin{document}\nxyz` with
the match at byte 4. -/
theorem splitTeX_partitions_at_first_match_witness :
    cfgDemo.mustUseXe = false ∧
      ((∃ body, splitCore cfgDemo xeNoMoveSource 4 =
          some (xeNoMoveSource.take 4 ++ dumpTok, body) ∧
          ∃ pfx, body = pfx ++ xeNoMoveSource.drop 4) ∧
        (splitCoreV0 cfgDemo xeNoMoveSource 4).1 = xeNoMoveSource.take 4 ++ dumpTok ∧
        (∃ pfx, (splitCoreV0 cfgDemo xeNoMoveSource 4).2 = pfx ++ xeNoMoveSource.drop 4)) :=
  ⟨rfl, splitTeX_partitions_at_first_match cfgDemo xeNoMoveSource 4 rfl⟩

/-- Claim C2 counterexample: in xelatex mode with the one-line preamble
`abc\n` and no adapter-moved lines, the emitted pad is two blank lines, not
the one blank line the claim prescribes ("as many blank lines as there were
source lines in the preamble segment, minus the lines the Preamble Adapter
moved"), because the code counts the pieces of the adapted preamble (here the
piece `abc` plus the trailing empty piece) rather than its source lines; the
body lines are accordingly shifted down by one relative to the original
source. -/
theorem splitTeX_pad_xelatex_counterexample :
    (splitCore cfgXeDemo xeNoMoveSource 4).map Prod.snd =
      some (pctAmp ++ cfgXeDemo.inBase ++ List.replicate 2 '\n' ++ xeNoMoveSource.drop 4) ∧
    (splitCore cfgXeDemo xeNoMoveSource 4).map Prod.snd ≠
      some (pctAmp ++ cfgXeDemo.inBase ++
        List.replicate (countNL (xeNoMoveSource.take 4)) '\n' ++ xeNoMoveSource.drop 4) := by
  decide

/-- Claim C2 (amended): under the default engine, where the adapter moves no
lines, the body file is exactly `%&<inBase>` followed by as many blank lines
as there are newlines in the preamble segment (clamped to one when that count
is zero) and then the source bytes from the match start, so body lines keep
their absolute source line numbers; in xelatex mode the pad instead counts
the kept pieces of the adapted preamble minus the moved lines, which differs
from the claimed value by one minus the number of moved lines. -/
theorem splitTeX_pad_line_alignment :
    ∀ (cfg : Config) (texdata : Text) (loc0 : Nat), cfg.mustUseXe = false →
      splitCore cfg texdata loc0 =
        some (texdata.take loc0 ++ dumpTok,
          pctAmp ++ cfg.inBase ++
            List.replicate (max 1 (countNL (texdata.take loc0))) '\n' ++
            texdata.drop loc0) :=
  fun _ texdata loc0 h => splitCore_not_xe h texdata loc0

/-- Witness for the amended C2 on the concrete source
`abc\n\begin{document}\nxyz`: the pad is one blank line, matching the one
source line of the preamble segment. -/
theorem splitTeX_pad_line_alignment_witness :
    cfgDemo.mustUseXe = false ∧
      splitCore cfgDemo xeNoMoveSource 4 =
        some (xeNoMoveSource.take 4 ++ dumpTok,
          pctAmp ++ cfgDemo.inBase ++
            List.replicate (max 1 (countNL (xeNoMoveSource.take 4))) '\n' ++
            xeNoMoveSource.drop 4) :=
  ⟨rfl, splitTeX_pad_line_alignment cfgDemo xeNoMoveSource 4 rfl⟩

/-- Claim C6: a recompilation cycle whose split step fails (missing or empty
source, or no pattern match) performs no compiler invocation at all — neither
a precompile nor a document compile — and still ends with the compiling flag
cleared (by exactly one clearing assignment). -/
theorem split_failure_aborts_cycle :
    ∀ (cfg : Config) (m : Text → Option Nat) (fs fs' : FS),
      splitTeXFS cfg m fs = (fs', SplitRes.failed) →
      recompileFS cfg m fs = some ⟨fs', [], false, 1⟩ := by
  intro cfg m fs fs' h
  unfold recompileFS
  rw [h]

/-- Witness for C6: with an empty disk the source read fails, the split
fails, and the cycle runs no compiler invocation. -/
theorem split_failure_aborts_cycle_witness :
    splitTeXFS cfgDemo (findSubIdx beginDocTok) fsNone = (fsNone, SplitRes.failed) ∧
      recompileFS cfgDemo (findSubIdx beginDocTok) fsNone = some ⟨fsNone, [], false, 1⟩ :=
  ⟨rfl, split_failure_aborts_cycle cfgDemo (findSubIdx beginDocTok) fsNone fsNone rfl⟩

/-- Claim C7: `precompile` unconditionally clears the force flag at the end
of its first (and only) call, the cleared flag makes any further precompile
attempt build exactly when full-compile mode is off and the artifact is
absent, and a watch-triggered recompilation cycle never contains a
precompile invocation at all. -/
theorem force_cleared_after_first_precompile :
    (∀ st : FormatState, (precompileStep st).1.mustBuildFormat = false) ∧
    (∀ st : FormatState, st.mustBuildFormat = false →
      ((precompileStep st).2 ≠ [] ↔ st.mustCompileAll = false ∧ st.fmtMissing = true)) ∧
    (∀ (cfg : Config) (m : Text → Option Nat) (fs : FS) (r : CycleResult),
      recompileFS cfg m fs = some r → Inv.precompileRun ∉ r.invocations) := by
  refine ⟨fun st => rfl, fun st h => ?_, fun cfg m fs r h => ?_⟩
  · obtain ⟨f, a, mi⟩ := st
    cases f <;> cases a <;> cases mi <;> simp_all [precompileStep]
  · rcases h' : splitTeXFS cfg m fs with ⟨fs', res⟩
    unfold recompileFS at h
    rw [h'] at h
    cases res <;> simp only [Option.some.injEq, reduceCtorEq] at h <;> subst h <;> simp

/-- Witness for C7 at concrete states: the flag is cleared even when it was
set, a force-free state with the artifact present builds nothing, and the
concrete failed cycle contains no precompile invocation. -/
theorem force_cleared_after_first_precompile_witness :
    (precompileStep ⟨true, true, false⟩).1.mustBuildFormat = false ∧
      ((precompileStep ⟨false, true, false⟩).2 ≠ [] ↔
        (true : Bool) = false ∧ (false : Bool) = true) ∧
      Inv.precompileRun ∉ ([] : List Inv) := by
  refine ⟨force_cleared_after_first_precompile.1 ⟨true, true, false⟩, ?_, ?_⟩
  · exact force_cleared_after_first_precompile.2.1 ⟨false, true, false⟩ rfl
  · exact force_cleared_after_first_precompile.2.2 cfgDemo (findSubIdx beginDocTok) fsNone
      ⟨fsNone, [], false, 1⟩ rfl

/-- One watch-loop step preserves the single-flight invariant. -/
theorem watchStep_inv (s : WatchState) (e : WEvent) (h : WatchInv s) :
    WatchInv (watchStep s e) := by
  obtain ⟨c, n⟩ := s
  obtain ⟨h1, h2⟩ := h
  cases e with
  | write =>
    cases c with
    | false =>
      have hn : n = 0 := h2 rfl
      subst hn
      exact ⟨Nat.le_refl 1, fun hc => nomatch hc⟩
    | true => exact ⟨h1, h2⟩
  | cycleDone ok =>
    rcases Nat.eq_zero_or_pos n with hn | hn
    · subst hn; exact ⟨h1, h2⟩
    · have hn1 : n = 1 := Nat.le_antisymm h1 hn
      subst hn1
      exact ⟨Nat.zero_le 1, fun _ => rfl⟩

/-- The single-flight invariant holds along any event trace. -/
theorem watchFold_inv (tr : List WEvent) (s : WatchState) (h : WatchInv s) :
    WatchInv (tr.foldl watchStep s) := by
  induction tr generalizing s with
  | nil => exact h
  | cons e tr ih => exact ih _ (watchStep_inv s e h)

/-- Claim C4: single-flight watching.  A write event arriving while the
compiling flag is set leaves the watch state entirely unchanged (no new cycle
is scheduled and nothing is queued); along every event trace at most one
cycle is ever in flight; completing the in-flight cycle clears the flag; and
every recompilation cycle — successful or failed — performs exactly one
clearing assignment of the compiling flag and ends with it cleared. -/
theorem watch_single_flight :
    (∀ s : WatchState, s.isCompiling = true → watchStep s WEvent.write = s) ∧
    (∀ tr : List WEvent, (tr.foldl watchStep ⟨false, 0⟩).inFlight ≤ 1) ∧
    (∀ (s : WatchState) (ok : Bool), s.inFlight ≠ 0 →
      (watchStep s (WEvent.cycleDone ok)).isCompiling = false ∧
      (watchStep s (WEvent.cycleDone ok)).inFlight = s.inFlight - 1) ∧
    (∀ (cfg : Config) (m : Text → Option Nat) (fs : FS) (r : CycleResult),
      recompileFS cfg m fs = some r → r.clears = 1 ∧ r.compilingEnd = false) := by
  refine ⟨fun s h => ?_, fun tr => ?_, fun s ok h => ?_, fun cfg m fs r h => ?_⟩
  · simp [watchStep, h]
  · exact (watchFold_inv tr ⟨false, 0⟩ ⟨Nat.zero_le 1, fun _ => rfl⟩).1
  · simp [watchStep, h]
  · rcases h' : splitTeXFS cfg m fs with ⟨fs', res⟩
    unfold recompileFS at h
    rw [h'] at h
    cases res <;> simp only [Option.some.injEq, reduceCtorEq] at h <;> subst h <;> exact ⟨rfl, rfl⟩

/-- Composition is the identity on a name without combining marks (there is
nothing for a base character to absorb). -/
theorem nfc_eq_of_no_marks (l : PathR) (h : ∀ r ∈ l, isMn r = false) : nfc l = l := by
  induction l with
  | nil => rfl
  | cons a l ih =>
    have hl : ∀ r ∈ l, isMn r = false := fun r hr => h r (List.mem_cons_of_mem _ hr)
    have htw : l.takeWhile isMn = [] := by
      cases l with
      | nil => rfl
      | cons b l' =>
        rw [List.takeWhile_cons, if_neg]
        rw [hl b (List.mem_cons_self _ _)]
        simp
    have ih' := ih hl
    simp only [nfc] at ih' ⊢
    rw [List.foldr_cons, ih']
    cases a with
    | base c => simp [htw]
    | mark m => rfl
    | prec c ms0 => simp [htw]
    | space => rfl

/-- Every rune of a decomposed name is a base character, a combining mark, or
a space — never a precomposed character. -/
theorem mem_nfd_shape {s : PathR} {r : Rune} (hr : r ∈ nfd s) :
    (∃ c, r = Rune.base c) ∨ (∃ m, r = Rune.mark m) ∨ r = Rune.space := by
  unfold nfd at hr
  rw [List.mem_flatten] at hr
  obtain ⟨l, hl, hrl⟩ := hr
  rw [List.mem_map] at hl
  obtain ⟨x, _, rfl⟩ := hl
  cases x with
  | base c =>
    simp only [nfdRune, List.mem_singleton] at hrl
    exact Or.inl ⟨c, hrl⟩
  | mark m =>
    simp only [nfdRune, List.mem_singleton] at hrl
    exact Or.inr (Or.inl ⟨m, hrl⟩)
  | space =>
    simp only [nfdRune, List.mem_singleton] at hrl
    exact Or.inr (Or.inr hrl)
  | prec c ms =>
    simp only [nfdRune, List.mem_cons, List.mem_map] at hrl
    rcases hrl with rfl | ⟨m, _, rfl⟩
    · exact Or.inl ⟨c, rfl⟩
    · exact Or.inr (Or.inl ⟨m, rfl⟩)

/-- Every rune of a normalized name is an unaccented base character. -/
theorem normalizeName_all_base (s : PathR) :
    ∀ r ∈ normalizeName s, ∃ c, r = Rune.base c := by
  intro r hr
  unfold normalizeName at hr
  rw [List.mem_filter] at hr
  obtain ⟨hr1, hrs⟩ := hr
  have hnm : ∀ x ∈ (nfd s).filter (fun r => !(isMn r)), isMn x = false := by
    intro x hx
    rw [List.mem_filter] at hx
    simpa using hx.2
  rw [nfc_eq_of_no_marks _ hnm] at hr1
  rw [List.mem_filter] at hr1
  obtain ⟨hin, hmn⟩ := hr1
  rcases mem_nfd_shape hin with ⟨c, rfl⟩ | ⟨m, rfl⟩ | rfl
  · exact ⟨c, rfl⟩
  · simp [isMn] at hmn
  · simp at hrs

/-- A normalized name contains neither accents nor spaces. -/
theorem hasAccentOrSpace_normalizeName (s : PathR) :
    hasAccentOrSpace (normalizeName s) = false := by
  unfold hasAccentOrSpace
  rw [List.any_eq_false]
  intro r hr
  obtain ⟨c, rfl⟩ := normalizeName_all_base s r hr
  simp

/-- Normalization changes a name that contains an accent or a space. -/
theorem normalizeName_ne {u : PathR} (h : hasAccentOrSpace u = true) :
    normalizeName u ≠ u := by
  intro he
  have hn := hasAccentOrSpace_normalizeName u
  rw [he, h] at hn
  exact Bool.noConfusion hn

/-- Appending the same suffix to different names gives different paths. -/
theorem append_ne_of_ne {α : Type _} {a b s : List α} (h : a ≠ b) : a ++ s ≠ b ++ s :=
  fun he => h (List.append_cancel_right he)

/-- Appending different suffixes to the same name gives different paths. -/
theorem append_left_ne {α : Type _} {a s t : List α} (h : s ≠ t) : a ++ s ≠ a ++ t :=
  fun he => h (List.append_cancel_left he)

/-- A `.pdf` path never coincides with a `.synctex` path. -/
theorem append_pdf_ne_append_sync (a b : PathR) : a ++ pdfR ≠ b ++ syncR := by
  intro he
  have h1 : (a ++ pdfR).getLast? = (b ++ syncR).getLast? := by rw [he]
  rw [List.getLast?_append, List.getLast?_append] at h1
  have hp : pdfR.getLast? = some (Rune.base 'f') := rfl
  have hs : syncR.getLast? = some (Rune.base 'x') := rfl
  rw [hp, hs] at h1
  have e1 : (some (Rune.base 'f')).or a.getLast? = some (Rune.base 'f') := rfl
  have e2 : (some (Rune.base 'x')).or b.getLast? = some (Rune.base 'x') := rfl
  rw [e1, e2] at h1
  have h2 : Rune.base 'f' = Rune.base 'x' := Option.some.inj h1
  exact absurd h2 (by decide)

/-- Claim C5: filename normalization round-trip.  For a user-facing base name
containing an accented character or a space, the internal name produced by
`normalizeName` contains neither; and after a successful final (non-draft)
compile pass that produced the `.pdf` under the internal name, the relocation
epilogue of `compile` leaves the `.pdf` present under the exact original name
and removes the copy under the normalized internal name. -/
theorem normalize_relocate_round_trip :
    ∀ u : PathR, hasAccentOrSpace u = true →
      hasAccentOrSpace (normalizeName u) = false ∧
      ∀ (d : Distro) (ns : Bool) (fs : FSet),
        fs (normalizeName u ++ pdfR) = true →
          compileRelocate false u (normalizeName u) (normalizeName u) d ns fs
              (u ++ pdfR) = true ∧
          compileRelocate false u (normalizeName u) (normalizeName u) d ns fs
              (normalizeName u ++ pdfR) = false := by
  intro u hu
  refine ⟨hasAccentOrSpace_normalizeName u, ?_⟩
  intro d ns fs hfs
  have hne : u ≠ normalizeName u := fun he => normalizeName_ne hu he.symm
  have hcond : (false : Bool) = false ∧ u ≠ normalizeName u ∧
      (d ≠ Distro.miktex ∨ u ≠ normalizeName u) := ⟨rfl, hne, Or.inr hne⟩
  have hpp : u ++ pdfR ≠ normalizeName u ++ pdfR := append_ne_of_ne hne
  have eus : u ++ pdfR ≠ normalizeName u ++ syncR := append_pdf_ne_append_sync u _
  have euu : u ++ pdfR ≠ u ++ syncR := append_pdf_ne_append_sync u u
  have ens : normalizeName u ++ pdfR ≠ normalizeName u ++ syncR :=
    append_pdf_ne_append_sync _ _
  have enu : normalizeName u ++ pdfR ≠ u ++ syncR := append_pdf_ne_append_sync _ _
  unfold compileRelocate
  rw [if_pos hcond, if_pos hfs]
  constructor
  · by_cases hs : ns = false ∧
        fsRem (normalizeName u ++ pdfR) (fsAdd (u ++ pdfR) fs)
          (normalizeName u ++ syncR) = true
    · rw [if_pos hs]
      simp [fsRem, fsAdd, if_neg eus, if_neg euu, if_neg hpp, hne]
    · rw [if_neg hs]
      simp [fsRem, fsAdd, if_neg hpp, hne]
  · by_cases hs : ns = false ∧
        fsRem (normalizeName u ++ pdfR) (fsAdd (u ++ pdfR) fs)
          (normalizeName u ++ syncR) = true
    · rw [if_pos hs]
      simp [fsRem, fsAdd, if_neg ens, if_neg enu, hne]
    · rw [if_neg hs]
      simp [fsRem, fsAdd, hne]

/-- Witness for C5 on a concrete name with an accent and a space: the
normalized name is clean, and the `.pdf` moves to the original name. -/
theorem normalize_relocate_round_trip_witness :
    hasAccentOrSpace uDemo = true ∧
      hasAccentOrSpace (normalizeName uDemo) = false ∧
      fsDemo (normalizeName uDemo ++ pdfR) = true ∧
      compileRelocate false uDemo (normalizeName uDemo) (normalizeName uDemo)
        Distro.texlive true fsDemo (uDemo ++ pdfR) = true ∧
      compileRelocate false uDemo (normalizeName uDemo) (normalizeName uDemo)
        Distro.texlive true fsDemo (normalizeName uDemo ++ pdfR) = false := by
  have h := normalize_relocate_round_trip uDemo (by decide)
  have h2 := h.2 Distro.texlive true fsDemo (by decide)
  exact ⟨by decide, h.1, by decide, h2.1, h2.2⟩

/-- Reading another path is unaffected by a write. -/
theorem fsWrite_apply_ne {p c : Text} {fs : FS} {q : Text} (h : q ≠ p) :
    fsWrite p c fs q = fs q := if_neg h

/-- Reading back a freshly written file gives its content. -/
theorem fsWrite_apply_self (p c : Text) (fs : FS) : fsWrite p c fs p = some c :=
  if_pos rfl

/-- Writing a file with the content it already has leaves the disk
unchanged. -/
theorem fsWrite_self {p c : Text} {fs : FS} (h : fs p = some c) :
    fsWrite p c fs = fs := by
  funext q
  by_cases hq : q = p
  · subst hq; rw [fsWrite_apply_self, h]
  · exact fsWrite_apply_ne hq

/-- The `.tex` suffix differs from the `.preamble.tex` suffix. -/
theorem texExt_ne_preambleExt : texExt ≠ preambleExt := by decide

/-- The `.tex` suffix differs from the `.body.tex` suffix. -/
theorem texExt_ne_bodyExt : texExt ≠ bodyExt := by decide

/-- The `.preamble.tex` suffix differs from the `.body.tex` suffix. -/
theorem preambleExt_ne_bodyExt : preambleExt ≠ bodyExt := by decide

/-- Paths other than the preamble and body working files are unaffected by
the write phase of `splitTeX`. -/
theorem writePhase_apply_ne {cfg : Config} {texdata : Text} {loc0 : Nat}
    {fs1 : FS} {q : Text} (hp : q ≠ cfg.inBase ++ preambleExt)
    (hb : q ≠ cfg.inBase ++ bodyExt) :
    (writePhase cfg texdata loc0 fs1).1 q = fs1 q := by
  unfold writePhase
  cases hsc : splitCore cfg texdata loc0 with
  | none => exact fsWrite_apply_ne hp
  | some pb =>
    dsimp only
    rw [fsWrite_apply_ne hb, fsWrite_apply_ne hp]

/-- Rerunning the write phase on its own output rewrites the same contents
and changes nothing. -/
theorem writePhase_idem (cfg : Config) (texdata : Text) (loc0 : Nat) (fs1 : FS) :
    writePhase cfg texdata loc0 (writePhase cfg texdata loc0 fs1).1 =
      writePhase cfg texdata loc0 fs1 := by
  have hpb : cfg.inBase ++ preambleExt ≠ cfg.inBase ++ bodyExt :=
    append_left_ne preambleExt_ne_bodyExt
  unfold writePhase
  cases hsc : splitCore cfg texdata loc0 with
  | none =>
    dsimp only
    rw [fsWrite_self (fsWrite_apply_self _ _ _)]
  | some pb =>
    dsimp only
    have h1 : fsWrite (cfg.inBase ++ bodyExt) pb.2
        (fsWrite (cfg.inBase ++ preambleExt)
          ((adaptPreamble cfg (texdata.take loc0)).1 ++ dumpTok) fs1)
        (cfg.inBase ++ preambleExt) =
        some ((adaptPreamble cfg (texdata.take loc0)).1 ++ dumpTok) := by
      rw [fsWrite_apply_ne hpb]
      exact fsWrite_apply_self _ _ _
    rw [fsWrite_self h1]
    rw [fsWrite_self (fsWrite_apply_self _ _ _)]

/-- Claim C9: the split operation is deterministic and idempotent.  Since the
outputs are a function of the configuration and the source bytes alone,
determinism is immediate; moreover, running `splitTeX` a second time on the
disk produced by a first run — the source bytes unchanged — reads the same
source (the working files it wrote do not shadow the source path), recomputes
the identical preamble and body contents, rewrites them unchanged, and
returns the same result, so both runs produce byte-identical preamble and
body output files. -/
theorem splitTeX_idempotent :
    ∀ (cfg : Config) (m : Text → Option Nat) (fs : FS),
      cfg.inBaseOriginal ++ texExt ≠ cfg.inBase ++ preambleExt →
      cfg.inBaseOriginal ++ texExt ≠ cfg.inBase ++ bodyExt →
      splitTeXFS cfg m (splitTeXFS cfg m fs).1 = splitTeXFS cfg m fs := by
  intro cfg m fs hsp hsb
  have htp : cfg.inBase ++ texExt ≠ cfg.inBase ++ preambleExt :=
    append_left_ne texExt_ne_preambleExt
  have htb : cfg.inBase ++ texExt ≠ cfg.inBase ++ bodyExt :=
    append_left_ne texExt_ne_bodyExt
  by_cases hca : cfg.mustCompileAll = true ∧ cfg.inBaseOriginal ≠ cfg.inBase
  case neg =>
    -- no copy: the first phase leaves the disk untouched
    have hcopy : ∀ g : FS, copyStepF cfg g = (g, true) := fun g => by
      unfold copyStepF; rw [if_neg hca]
    by_cases he : cfg.mustBuildFormat = false ∧ cfg.mustCompileAll = true
    · simp only [splitTeXFS, hcopy, if_pos he]
    · simp only [splitTeXFS, hcopy, if_neg he]
      cases hr : fs (cfg.inBaseOriginal ++ texExt) with
      | none => simp only [hr]
      | some texdata =>
        simp only [hr]
        by_cases hemp : texdata = []
        · simp only [if_pos hemp, hr]
        · simp only [if_neg hemp]
          cases hm : m texdata with
          | none => simp only [hm, hr, if_neg hemp]
          | some loc0 =>
            simp only [hm]
            have hread : (writePhase cfg texdata loc0 fs).1
                (cfg.inBaseOriginal ++ texExt) = some texdata := by
              rw [writePhase_apply_ne hsp hsb, hr]
            simp only [hread, if_neg hemp, hm]
            exact writePhase_idem cfg texdata loc0 fs
  case pos =>
    have hst : cfg.inBaseOriginal ++ texExt ≠ cfg.inBase ++ texExt :=
      append_ne_of_ne hca.2
    cases hr : fs (cfg.inBaseOriginal ++ texExt) with
    | none =>
      -- copy fails, disk untouched; both runs fail identically
      have hcopy : copyStepF cfg fs = (fs, false) := by
        unfold copyStepF; rw [if_pos hca, hr]
      by_cases he : cfg.mustBuildFormat = false ∧ cfg.mustCompileAll = true
      · simp only [splitTeXFS, hcopy, if_pos he, hcopy]
      · simp only [splitTeXFS, hcopy, if_neg he, hr]
    | some c =>
      have hcopy : copyStepF cfg fs = (fsWrite (cfg.inBase ++ texExt) c fs, true) := by
        unfold copyStepF; rw [if_pos hca, hr]
      -- the copied file already holds the source content on the second run
      have hcopy2 : ∀ g : FS, g (cfg.inBaseOriginal ++ texExt) = some c →
          g (cfg.inBase ++ texExt) = some c → copyStepF cfg g = (g, true) := by
        intro g hg1 hg2
        unfold copyStepF
        rw [if_pos hca, hg1]
        dsimp only
        rw [fsWrite_self hg2]
      have hr1 : fsWrite (cfg.inBase ++ texExt) c fs (cfg.inBaseOriginal ++ texExt) =
          some c := by rw [fsWrite_apply_ne hst, hr]
      by_cases he : cfg.mustBuildFormat = false ∧ cfg.mustCompileAll = true
      · simp only [splitTeXFS, hcopy, if_pos he]
        rw [hcopy2 _ hr1 (fsWrite_apply_self _ _ _)]
        simp
      · simp only [splitTeXFS, hcopy, if_neg he, hr1]
        by_cases hemp : c = []
        · simp only [if_pos hemp]
          rw [hcopy2 _ hr1 (fsWrite_apply_self _ _ _)]
          simp only [if_neg he, hr1, if_pos hemp]
        · simp only [if_neg hemp]
          cases hm : m c with
          | none =>
            simp only [hm]
            rw [hcopy2 _ hr1 (fsWrite_apply_self _ _ _)]
            simp only [if_neg he, hr1, if_neg hemp, hm]
          | some loc0 =>
            simp only [hm]
            have hread : (writePhase cfg c loc0 (fsWrite (cfg.inBase ++ texExt) c fs)).1
                (cfg.inBaseOriginal ++ texExt) = some c := by
              rw [writePhase_apply_ne hsp hsb, hr1]
            have hcopyt : (writePhase cfg c loc0 (fsWrite (cfg.inBase ++ texExt) c fs)).1
                (cfg.inBase ++ texExt) = some c := by
              rw [writePhase_apply_ne htp htb, fsWrite_apply_self]
            rw [hcopy2 _ hread hcopyt]
            simp only [if_neg he, hread, if_neg hemp, hm]
            exact writePhase_idem cfg c loc0 _

/-- Witness for C9: splitting `doc.tex` twice from the same disk state
produces the identical disk (hence byte-identical working files) and the same
result. -/
theorem splitTeX_idempotent_witness :
    (cfgDemo.inBaseOriginal ++ texExt ≠ cfgDemo.inBase ++ preambleExt) ∧
    (cfgDemo.inBaseOriginal ++ texExt ≠ cfgDemo.inBase ++ bodyExt) ∧
    splitTeXFS cfgDemo (findSubIdx beginDocTok)
        (splitTeXFS cfgDemo (findSubIdx beginDocTok) fsDoc).1 =
      splitTeXFS cfgDemo (findSubIdx beginDocTok) fsDoc :=
  ⟨by decide, by decide,
    splitTeX_idempotent cfgDemo (findSubIdx beginDocTok) fsDoc (by decide) (by decide)⟩

/-- Witness for C4: a write event is dropped while compiling, the completion
of the in-flight cycle clears the flag, and the concrete failed cycle clears
the flag exactly once. -/
theorem watch_single_flight_witness :
    ((⟨true, 1⟩ : WatchState).isCompiling = true ∧
      watchStep ⟨true, 1⟩ WEvent.write = ⟨true, 1⟩) ∧
    ((⟨true, 1⟩ : WatchState).inFlight ≠ 0 ∧
      (watchStep ⟨true, 1⟩ (WEvent.cycleDone true)).isCompiling = false ∧
      (watchStep ⟨true, 1⟩ (WEvent.cycleDone true)).inFlight = 0) ∧
    ((1 : Nat) = 1 ∧ (false : Bool) = false) := by
  refine ⟨⟨rfl, watch_single_flight.1 ⟨true, 1⟩ rfl⟩, ⟨by decide, ?_⟩, ?_⟩
  · exact watch_single_flight.2.2.1 ⟨true, 1⟩ true (by decide)
  · exact watch_single_flight.2.2.2 cfgDemo (findSubIdx beginDocTok) fsNone
      ⟨fsNone, [], false, 1⟩ rfl

end LFC





